import Mathlib

/-!
# Script Documenter AI — verification of the documentation pipeline

A shallow embedding of the sequential per-file documentation pipeline of the
Script Documenter AI repository: the file classifier (`getFileLanguage`), the
documentation service wrapper (`generateDocumentation`, with its fence
post-processing and error-message mapping), and the pipeline (`handleAnalyze`)
with its cancellation flag and progress messages.

JavaScript strings are modelled by Lean `String`; each JavaScript string
builtin used by the source (`trim`, `toLowerCase`, `startsWith`, `includes`,
`split`, `pop`, …) is modelled once as a definition over the underlying
character list.  The external AI call is modelled by an oracle
(`Except JsError String` per file); the run-wide cancellation flag, written by
`handleCancel` concurrently with the loop, is modelled by an oracle
`cancelAt : Nat → Bool` giving the value the loop reads at the check before
the i-th file.
-/

/-- Model of JavaScript `String.prototype.trim` on character lists:
remove whitespace from both ends. -/
def trimChars (cs : List Char) : List Char :=
  ((cs.dropWhile Char.isWhitespace).reverse.dropWhile Char.isWhitespace).reverse

/-- Model of JavaScript `String.prototype.trim`. -/
def jsTrim (s : String) : String :=
  ⟨trimChars s.data⟩

/-- Model of JavaScript `String.prototype.toLowerCase` (ASCII range). -/
def jsToLowerCase (s : String) : String :=
  ⟨s.data.map Char.toLower⟩

/-- Model of JavaScript `String.prototype.startsWith`. -/
def jsStartsWith (s pre : String) : Bool :=
  pre.data.isPrefixOf s.data

/-- Substring search on character lists: does `sub` occur contiguously in
`hay`? -/
def containsSub (hay sub : List Char) : Bool :=
  sub.isPrefixOf hay ||
    match hay with
    | [] => false
    | _ :: t => containsSub t sub

/-- Model of JavaScript `String.prototype.includes`: substring containment. -/
def jsIncludes (s sub : String) : Bool :=
  containsSub s.data sub.data

/-- Model of JavaScript `String.prototype.split` with a one-character
separator, on character lists.  `split` never returns an empty array:
splitting the empty string yields `[[]]`. -/
def splitChars (sep : Char) : List Char → List (List Char)
  | [] => [[]]
  | c :: cs =>
    let r := splitChars sep cs
    if c = sep then [] :: r
    else
      match r with
      | x :: xs => (c :: x) :: xs
      | [] => [[c]]

/-- Model of `fileName.split('.')` producing strings. -/
def jsSplitDot (s : String) : List String :=
  (splitChars '.' s.data).map (fun cs => ⟨cs⟩)

/-- Model of `Array.prototype.pop` composed with the optional chaining used in
the source: the last element of the split (the split is never empty, so the
default is never used). -/
def jsPop (parts : List String) : String :=
  parts.getLastD ""

/-- The application's three UI states (`type AppState`). -/
inductive AppState where
  | uploading
  | loading
  | reviewing
deriving DecidableEq, Repr

/-- The two supported documentation languages (`type DocLanguage`). -/
inductive DocLanguage where
  | en
  | ru
deriving DecidableEq, Repr

/-- The two project groupings (`'main' | 'frontend'`). -/
inductive ProjectName where
  | main
  | frontend
deriving DecidableEq, Repr

/-- `interface ProjectFile`: one uploaded file and its documentation
outcome.  `documentedContent` and `error` are nullable (`Option`). -/
structure ProjectFile where
  name : String
  content : String
  language : String
  documentedContent : Option String
  error : Option String
  isIncluded : Bool
deriving DecidableEq, Repr

/-- `getFileLanguage` (App component): the extension is
`fileName.split('.').pop()?.toLowerCase()`, compared against the fixed
table; anything else yields the sentinel `"code"`. -/
def getFileLanguage (fileName : String) : String :=
  let extension := jsToLowerCase (jsPop (jsSplitDot fileName))
  if extension == "js" then "JavaScript"
  else if extension == "ts" then "TypeScript"
  else if extension == "py" then "Python"
  else if extension == "java" then "Java"
  else if extension == "go" then "Go"
  else if extension == "gs" then "Google Apps Script"
  else "code"

/-- The classifier's fixed extension table, as the spec describes it
(lower-case keys; used to state the classifier's contract). -/
def languageTable : List (String × String) :=
  [("js", "JavaScript"), ("ts", "TypeScript"), ("py", "Python"),
   ("java", "Java"), ("go", "Go"), ("gs", "Google Apps Script")]

/-- Table lookup with the sentinel `"code"` for unknown keys. -/
def tableLookup (ext : String) : String :=
  (languageTable.lookup ext).getD "code"

/-! ## A model of `JSON.parse`, for the service's error-message mapping

The service's catch block tries `JSON.parse` on the caught error's message
and, when the parse produces an object with a truthy `error` field carrying a
truthy `message` field, surfaces that nested message.  We model JSON values
and a fuel-indexed parser for them.  JSON numbers are modelled by their
integer part (the fractional part and exponent are parsed and discarded);
this is adequate here because a number can never carry a `.message` field,
so the branch taken by the catch block does not depend on the number's exact
value. -/

/-- JSON values as produced by `JSON.parse`.  Object fields keep their
textual order; a duplicate key's later binding wins on access, as in
JavaScript. -/
inductive Json where
  | null
  | bool (b : Bool)
  | num (n : Int)
  | str (s : String)
  | arr (elems : List Json)
  | obj (fields : List (String × Json))
deriving Repr, Inhabited

/-- The opening brace character, kept symbolic. -/
def lbrace : Char := Char.ofNat 123

/-- The closing brace character, kept symbolic. -/
def rbrace : Char := Char.ofNat 125

/-- JSON insignificant whitespace. -/
def jsonWs (c : Char) : Bool :=
  c == ' ' || c == '\t' || c == '\n' || c == '\r'

/-- Skip insignificant whitespace. -/
def skipWs (cs : List Char) : List Char :=
  cs.dropWhile jsonWs

/-- Decode one hexadecimal digit. -/
def hexDigit? (c : Char) : Option Nat :=
  if '0' ≤ c ∧ c ≤ '9' then some (c.toNat - '0'.toNat)
  else if 'a' ≤ c ∧ c ≤ 'f' then some (c.toNat - 'a'.toNat + 10)
  else if 'A' ≤ c ∧ c ≤ 'F' then some (c.toNat - 'A'.toNat + 10)
  else none

/-- Parse the body of a JSON string literal (after the opening quote),
returning the decoded characters and the input remaining after the closing
quote.  Control characters are rejected, as `JSON.parse` rejects them. -/
def parseStringBody : List Char → Option (List Char × List Char)
  | [] => none
  | '"' :: rest => some ([], rest)
  | '\\' :: 'u' :: h1 :: h2 :: h3 :: h4 :: rest => do
    let d1 ← hexDigit? h1
    let d2 ← hexDigit? h2
    let d3 ← hexDigit? h3
    let d4 ← hexDigit? h4
    let p ← parseStringBody rest
    some (Char.ofNat (((d1 * 16 + d2) * 16 + d3) * 16 + d4) :: p.1, p.2)
  | '\\' :: e :: rest => do
    let c ← match e with
      | '"' => some '"'
      | '\\' => some '\\'
      | '/' => some '/'
      | 'b' => some (Char.ofNat 8)
      | 'f' => some (Char.ofNat 12)
      | 'n' => some '\n'
      | 'r' => some '\r'
      | 't' => some '\t'
      | _ => none
    let p ← parseStringBody rest
    some (c :: p.1, p.2)
  | c :: rest =>
    if c.toNat < 32 then none
    else do
      let p ← parseStringBody rest
      some (c :: p.1, p.2)

/-- Consume a run of decimal digits, accumulating their value. -/
def parseDigitsAux : List Char → Nat → Nat × List Char
  | c :: rest, acc =>
    if '0' ≤ c ∧ c ≤ '9' then parseDigitsAux rest (acc * 10 + (c.toNat - '0'.toNat))
    else (acc, c :: rest)
  | [], acc => (acc, [])

/-- Parse one or more decimal digits. -/
def parseDigits (cs : List Char) : Option (Nat × List Char) :=
  match cs with
  | c :: _ =>
    if '0' ≤ c ∧ c ≤ '9' then some (parseDigitsAux cs 0) else none
  | [] => none

/-- Parse a JSON number token; the value kept is the (signed) integer part,
any fraction and exponent are consumed and discarded. -/
def parseNumber (cs : List Char) : Option (Json × List Char) :=
  let (neg, cs1) :=
    match cs with
    | '-' :: rest => (true, rest)
    | _ => (false, cs)
  match parseDigits cs1 with
  | none => none
  | some (whole, cs2) =>
    let cs3 :=
      match cs2 with
      | '.' :: rest =>
        match parseDigits rest with
        | some (_, r) => r
        | none => '.' :: rest
      | _ => cs2
    let cs4 :=
      match cs3 with
      | c :: rest =>
        if c = 'e' ∨ c = 'E' then
          let rest2 :=
            match rest with
            | s :: r2 => if s = '+' ∨ s = '-' then r2 else rest
            | [] => rest
          match parseDigits rest2 with
          | some (_, r) => r
          | none => cs3
        else cs3
      | [] => cs3
    some (.num (if neg then -(whole : Int) else (whole : Int)), cs4)

mutual

/-- Parse one JSON value (fuel-indexed; the fuel bounds nesting depth and
item counts and is chosen larger than the input length). -/
def parseValue : Nat → List Char → Option (Json × List Char)
  | 0, _ => none
  | Nat.succ fuel, cs =>
    match skipWs cs with
    | 'n' :: 'u' :: 'l' :: 'l' :: rest => some (.null, rest)
    | 't' :: 'r' :: 'u' :: 'e' :: rest => some (.bool true, rest)
    | 'f' :: 'a' :: 'l' :: 's' :: 'e' :: rest => some (.bool false, rest)
    | '"' :: rest =>
      match parseStringBody rest with
      | some (body, r) => some (.str ⟨body⟩, r)
      | none => none
    | '[' :: rest =>
      match skipWs rest with
      | ']' :: r2 => some (.arr [], r2)
      | r2 => parseArrayItems fuel r2 []
    | c :: rest =>
      if c = lbrace then
        match skipWs rest with
        | c2 :: r2 =>
          if c2 = rbrace then some (.obj [], r2)
          else parseObjectItems fuel (c2 :: r2) []
        | [] => none
      else parseNumber (c :: rest)
    | [] => none

/-- Parse the comma-separated items of a non-empty JSON array, up to and
including the closing bracket. -/
def parseArrayItems : Nat → List Char → List Json → Option (Json × List Char)
  | 0, _, _ => none
  | Nat.succ fuel, cs, acc =>
    match parseValue fuel cs with
    | none => none
    | some (v, r) =>
      match skipWs r with
      | ',' :: r2 => parseArrayItems fuel r2 (v :: acc)
      | ']' :: r2 => some (.arr (v :: acc).reverse, r2)
      | _ => none

/-- Parse the comma-separated members of a non-empty JSON object, up to and
including the closing brace. -/
def parseObjectItems : Nat → List Char → List (String × Json) →
    Option (Json × List Char)
  | 0, _, _ => none
  | Nat.succ fuel, cs, acc =>
    match skipWs cs with
    | '"' :: rest =>
      match parseStringBody rest with
      | none => none
      | some (key, r) =>
        match skipWs r with
        | ':' :: r2 =>
          match parseValue fuel r2 with
          | none => none
          | some (v, r3) =>
            match skipWs r3 with
            | ',' :: r4 => parseObjectItems fuel r4 ((⟨key⟩, v) :: acc)
            | c :: r4 =>
              if c = rbrace then some (.obj ((⟨key⟩, v) :: acc).reverse, r4)
              else none
            | [] => none
        | _ => none
    | _ => none

end

/-- Model of `JSON.parse`: parse one value and require only whitespace to
remain.  `none` models a thrown `SyntaxError`. -/
def parseJson (s : String) : Option Json :=
  match parseValue (s.data.length + 1) s.data with
  | some (v, rest) => if skipWs rest = [] then some v else none
  | none => none

/-- Truthiness of a `JSON.parse` result in JavaScript.  (Numbers are judged
by their modelled integer part; see the note on `Json.num`.) -/
def jsTruthy : Json → Bool
  | .null => false
  | .bool b => b
  | .num n => n != 0
  | .str s => s != ""
  | .arr _ => true
  | .obj _ => true

/-- Last binding of a key in an object's field list (a duplicate key's later
binding wins, as with `JSON.parse` in JavaScript). -/
def lookupLast (k : String) : List (String × Json) → Option Json
  | [] => none
  | kv :: rest =>
    match lookupLast k rest with
    | some v => some v
    | none => if kv.1 == k then some kv.2 else none

/-- JavaScript property access `v.k` on a `JSON.parse` result: objects yield
the key's binding, other non-`null` values yield `undefined` (`none`).
Access on `null` throws a `TypeError`; the caller models that path
separately. -/
def jsGetField : Json → String → Option Json
  | .obj kvs, k => lookupLast k kvs
  | _, _ => none

mutual

/-- JavaScript string interpolation of a `JSON.parse` result, as in the
template literal surfacing `parsed.error.message`.  (Arrays are rendered as
their comma-joined elements, an approximation of `Array.prototype.toString`
that is exact for flat arrays of primitives.) -/
def jsRender : Json → String
  | .null => "null"
  | .bool b => if b then "true" else "false"
  | .num n => toString n
  | .str s => s
  | .arr xs => String.intercalate "," (jsRenderList xs)
  | .obj _ => "[object Object]"

/-- Render each element of a JSON array. -/
def jsRenderList : List Json → List String
  | [] => []
  | x :: xs => jsRender x :: jsRenderList xs

end

/-! ## The documentation service (`generateDocumentation`) -/

/-- A caught JavaScript exception, as the service's catch block observes it:
either an `Error` instance carrying its `message` string, or any other
thrown value. -/
inductive JsError where
  | errObj (message : String)
  | nonError
deriving DecidableEq, Repr

/-- The default message of the service's catch block. -/
def unknownServiceError : String :=
  "An unknown error occurred while communicating with the AI model."

/-- Head of the message surfaced for a structured API error payload. -/
def aiModelErrorHead : String := "The AI model returned an error: "

/-- Head of the message surfaced for an unstructured error message. -/
def unexpectedErrorHead : String := "An unexpected error occurred: "

/-- The remediation hint appended for server-side / transport failures. -/
def remediationHint : String :=
  "\nThis could be a temporary issue with the AI service or the request might be too large. Please try again later or with fewer files."

/-- The catch block's message construction before the remediation-hint check
(geminiService.ts lines 91-106): if the caught value is an `Error` with a
truthy (non-empty) message, try `JSON.parse` on the message; a parse result
with a truthy `error` field carrying a truthy `message` field surfaces that
nested message, every other outcome (parse failure, the `TypeError` from
accessing a field of a parsed `null`, a falsy or absent field) surfaces the
raw message. -/
def baseErrorMessage : JsError → String
  | .nonError => unknownServiceError
  | .errObj msg =>
    if msg == "" then unknownServiceError
    else
      match parseJson msg with
      | none => unexpectedErrorHead ++ msg
      | some .null => unexpectedErrorHead ++ msg
      | some parsed =>
        match jsGetField parsed "error" with
        | some errField =>
          if jsTruthy errField then
            match jsGetField errField "message" with
            | some m =>
              if jsTruthy m then aiModelErrorHead ++ jsRender m
              else unexpectedErrorHead ++ msg
            | none => unexpectedErrorHead ++ msg
          else unexpectedErrorHead ++ msg
        | none => unexpectedErrorHead ++ msg

/-- The full failure mapping of the service's catch block (lines 88-112):
the constructed message, with the remediation hint appended when it contains
`"500"` or `"Rpc failed"`.  The service re-throws `Error(mapErrorMessage e)`. -/
def mapErrorMessage (e : JsError) : String :=
  let m := baseErrorMessage e
  if jsIncludes m "500" || jsIncludes m "Rpc failed" then m ++ remediationHint
  else m

/-- Drop the last `n` elements of a list. -/
def dropRight (n : Nat) (l : List Char) : List Char :=
  l.take (l.length - n)

/-- The match of the fence-stripping regular expression
`^(three backticks)(?:[a-zA-Z]*)?\n?([\s\S]*)(three backticks)$` against a
(already trimmed) response, returning capture group 1 when it matches.
The greedy scan of the regex engine is equivalent to: after the opening
delimiter, consume the longest run of ASCII letters (the optional language
tag), then an optional newline; the rest must end with the closing
delimiter, and the group is the rest minus that delimiter. -/
def fenceMatchChars (cs : List Char) : Option (List Char) :=
  if ("```".data).isPrefixOf cs then
    let rest := cs.drop 3
    let tag := rest.takeWhile Char.isAlpha
    let afterTag := rest.drop tag.length
    let inner :=
      match afterTag with
      | '\n' :: t => t
      | _ => afterTag
    if ("```".data).isSuffixOf inner then some (dropRight 3 inner)
    else none
  else none

/-- The service's post-processing of a successful response (lines 79-86):
trim, then strip a surrounding fenced code block (with optional language
tag), trimming again, when the whole response is so wrapped. -/
def postProcessResponse (text : String) : String :=
  let documentedScript := trimChars text.data
  match fenceMatchChars documentedScript with
  | some inner => ⟨trimChars inner⟩
  | none => ⟨documentedScript⟩

/-- `generateDocumentation` (geminiService.ts lines 45-113).  The external
call `ai.models.generateContent` is modelled by the oracle `aiOutcome`; the
second component counts the calls made to it.  A `"code"` language label or
empty/whitespace-only script returns the script unchanged without calling
the service; otherwise a successful response is post-processed, and a
failure is re-thrown (`Except.error`) with the mapped message. -/
def generateDocumentation (script : String) (language : String)
    (_projectContext : String) (_docLanguage : DocLanguage)
    (aiOutcome : Except JsError String) : Except String String × Nat :=
  if language == "code" || (jsTrim script).length == 0 then (.ok script, 0)
  else
    match aiOutcome with
    | .ok text => (.ok (postProcessResponse text), 1)
    | .error e => (.error (mapErrorMessage e), 1)

/-! ## The pipeline (App component) -/

/-- `handleFilesUpload` (lines 41-64): each supplied raw file (name and
eventually-read content) becomes a fresh `ProjectFile` — classified by name,
`documentedContent` and `error` null, `isIncluded` true.  The produced list
replaces the grouping's previous one. -/
def handleFilesUpload (rawFiles : List (String × String)) : List ProjectFile :=
  rawFiles.map fun raw =>
    { name := raw.1
      content := raw.2
      language := getFileLanguage raw.1
      documentedContent := none
      error := none
      isIncluded := true }

/-- The body of the analysis loop for one file (lines 96-107): a file whose
stored label is the sentinel `"code"` gets its own content as documented
content without a service call; otherwise the service is invoked, a success
is stored in `documentedContent`, and a thrown failure is caught and its
message stored in `error`.  The second component counts external AI calls. -/
def processFile (ctx : String) (dl : DocLanguage)
    (aiOutcome : Except JsError String) (f : ProjectFile) : ProjectFile × Nat :=
  if f.language == "code" then
    ({ f with documentedContent := some f.content }, 0)
  else
    match generateDocumentation f.content f.language ctx dl aiOutcome with
    | (.ok result, n) => ({ f with documentedContent := some result }, n)
    | (.error msg, n) => ({ f with error := some msg }, n)

/-- The first file whose lower-cased name starts with `"readme"`. -/
def findReadme (files : List ProjectFile) : Option ProjectFile :=
  files.find? fun f => jsStartsWith (jsToLowerCase f.name) "readme"

/-- The first file whose lower-cased name starts with `"changelog"`. -/
def findChangelog (files : List ProjectFile) : Option ProjectFile :=
  files.find? fun f => jsStartsWith (jsToLowerCase f.name) "changelog"

/-- The project-context string assembled before the loop (lines 75-86):
the combined file listing, then the README's content and the CHANGELOG's
content in labelled sections when such files exist. -/
def buildProjectContext (allFiles : List ProjectFile) : String :=
  let base := "This project contains the following files:\n"
    ++ String.intercalate "\n" (allFiles.map fun f => "- " ++ f.name)
  let withReadme :=
    match findReadme allFiles with
    | some r => base ++ "\n\n--- PROJECT README ---\n" ++ r.content ++ "\n--- END README ---"
    | none => base
  match findChangelog allFiles with
  | some c => withReadme ++ "\n\n--- PROJECT CHANGELOG ---\n" ++ c.content ++ "\n--- END CHANGELOG ---"
  | none => withReadme

/-- The progress message emitted before processing the file at (0-based)
index `i` of `total` (line 95). -/
def progressMessage (total i : Nat) (f : ProjectFile) : String :=
  "Analyzing " ++ toString (i + 1) ++ "/" ++ toString total ++ ": " ++ f.name

/-- The analysis loop (lines 90-108).  `ai i` is the outcome of the external
call made for the file at index `i`; `cancelAt i` is the value of the shared
cancellation flag that the loop reads at the check before index `i`.  When
the flag is observed set, the loop breaks, leaving the remaining files
untouched and emitting no further progress messages.  Returns the file list
(processed prefix, untouched suffix) and the emitted progress messages. -/
def runLoop (ctx : String) (dl : DocLanguage) (total : Nat)
    (ai : Nat → Except JsError String) (cancelAt : Nat → Bool) :
    Nat → List ProjectFile → List ProjectFile × List String
  | _, [] => ([], [])
  | i, f :: rest =>
    if cancelAt i then (f :: rest, [])
    else
      let f2 := (processFile ctx dl (ai i) f).1
      let r := runLoop ctx dl total ai cancelAt (i + 1) rest
      (f2 :: r.1, progressMessage total i f :: r.2)

/-- The observable outcome of `handleAnalyze`: the two groupings' file lists
after the run, the terminal `appState`, the progress messages emitted, and
the project context that was assembled (`none` when the run returned before
building one). -/
structure AnalyzeResult where
  mainFiles : List ProjectFile
  frontendFiles : List ProjectFile
  appState : AppState
  progressMessages : List String
  projectContext : Option String
deriving DecidableEq, Repr

/-- `handleAnalyze` (lines 66-115): reset the flag and enter `loading`
(both implicit here — the flag's subsequent reads are the oracle
`cancelAt`); with no files at all, return to `uploading` having done
nothing.  Otherwise assemble the context, run the loop over
`main ++ frontend`, push the (in-place mutated) arrays back and enter
`reviewing`.  The files mutated by the loop are shared with the two
grouping arrays, so the groupings after the run are the corresponding
slices of the loop's list. -/
def handleAnalyze (main frontend : List ProjectFile) (dl : DocLanguage)
    (ai : Nat → Except JsError String) (cancelAt : Nat → Bool) : AnalyzeResult :=
  let allFiles := main ++ frontend
  if allFiles.length == 0 then
    { mainFiles := main
      frontendFiles := frontend
      appState := .uploading
      progressMessages := []
      projectContext := none }
  else
    let ctx := buildProjectContext allFiles
    let r := runLoop ctx dl allFiles.length ai cancelAt 0 allFiles
    { mainFiles := r.1.take main.length
      frontendFiles := r.1.drop main.length
      appState := .reviewing
      progressMessages := r.2
      projectContext := some ctx }

/-- The arrow function mapped by `toggleFileInclusion` (lines 125-127):
flip `isIncluded` on a name-matching record, keep any other unchanged. -/
def toggleRecord (fileName : String) (f : ProjectFile) : ProjectFile :=
  if f.name == fileName then { f with isIncluded := !f.isIncluded } else f

/-- `toggleFileInclusion` (lines 121-129): flip `isIncluded` on every record
of the named grouping whose name matches; the other grouping is untouched. -/
def toggleFileInclusion (projectName : ProjectName) (fileName : String)
    (mainFiles frontendFiles : List ProjectFile) :
    List ProjectFile × List ProjectFile :=
  let files :=
    match projectName with
    | .main => mainFiles
    | .frontend => frontendFiles
  let updatedFiles := files.map (toggleRecord fileName)
  match projectName with
  | .main => (updatedFiles, frontendFiles)
  | .frontend => (mainFiles, updatedFiles)

/-- The combined post-run file list, main grouping first — the records the
caller inspects after a run. -/
def allResultFiles (r : AnalyzeResult) : List ProjectFile :=
  r.mainFiles ++ r.frontendFiles

/-- A file list in its as-uploaded state: no outcome field written yet. -/
def freshFiles (files : List ProjectFile) : Prop :=
  ∀ f ∈ files, f.documentedContent = none ∧ f.error = none

instance (files : List ProjectFile) : Decidable (freshFiles files) := by
  unfold freshFiles; infer_instance

/-! ### Concrete sample data used to exercise the theorems -/

/-- A sample main-grouping upload: one Python file and a README. -/
def sampleMain : List ProjectFile :=
  handleFilesUpload [("a.py", "print(1)"), ("README.md", "hello")]

/-- The record produced for the sample Python file. -/
def samplePyFile : ProjectFile :=
  { name := "a.py", content := "print(1)", language := "Python",
    documentedContent := none, error := none, isIncluded := true }

/-- A sample main grouping matching the spec's ordering scenario. -/
def sampleMain4 : List ProjectFile :=
  handleFilesUpload [("a.py", "pa"), ("b.readme", "rd"), ("c.js", "cj")]

/-- A sample frontend grouping matching the spec's ordering scenario. -/
def sampleFrontend4 : List ProjectFile :=
  handleFilesUpload [("d.ts", "dt")]

/-- An oracle answering every call with a fenced successful response. -/
def sampleAiOk : Nat → Except JsError String :=
  fun _ => .ok "```py\ndoc\n```"

/-- An oracle failing every call with a plain error message. -/
def sampleAiErr : Nat → Except JsError String :=
  fun _ => .error (.errObj "boom")

/-- A cancellation oracle whose flag is observed set from the second check
on (the flag was raised while the first file was being processed). -/
def sampleCancelAfter1 : Nat → Bool :=
  fun j => Nat.ble 1 j

/-! ## Evaluation checks on concrete inputs -/

example : getFileLanguage "a.PY" = "Python" := by decide
example : getFileLanguage "noext" = "code" := by decide
example : getFileLanguage "js" = "JavaScript" := by decide
example : getFileLanguage "x.tar.gz" = "code" := by decide
example : getFileLanguage "" = "code" := by decide

example : parseJson "\x7b\"error\":\x7b\"message\":\"quota exceeded\"\x7d\x7d"
    = some (.obj [("error", .obj [("message", .str "quota exceeded")])]) := rfl
example : parseJson "Network failure" = none := rfl
example : parseJson " [1, true, null] " = some (.arr [.num 1, .bool true, .null]) := rfl
example : parseJson "\"hi\"" = some (.str "hi") := rfl

example :
    mapErrorMessage (.errObj "\x7b\"error\":\x7b\"message\":\"quota exceeded\"\x7d\x7d")
      = "The AI model returned an error: quota exceeded" := rfl
example : mapErrorMessage .nonError = unknownServiceError := rfl
example : mapErrorMessage (.errObj "boom") = "An unexpected error occurred: boom" := rfl
example :
    mapErrorMessage (.errObj "HTTP 500")
      = "An unexpected error occurred: HTTP 500" ++ remediationHint := rfl

example : postProcessResponse "```js\nfoo();\n```" = "foo();" := rfl
example : postProcessResponse "  plain text  " = "plain text" := rfl
example : postProcessResponse "```\nbar\n```" = "bar" := rfl
example : postProcessResponse "``` incomplete" = "``` incomplete" := rfl

example :
    generateDocumentation "   " "Python" "ctx" .en (.ok "ignored") = (.ok "   ", 0) := rfl
example :
    generateDocumentation "x" "code" "ctx" .en (.error .nonError) = (.ok "x", 0) := rfl
example :
    generateDocumentation "f()" "Python" "ctx" .en (.ok "```py\ng()\n```")
      = (.ok "g()", 1) := rfl

/-! ## Characterization of the loop -/

/-- The loop never adds or removes file records. -/
theorem runLoop_fst_length (ctx : String) (dl : DocLanguage) (total : Nat)
    (ai : Nat → Except JsError String) (cancelAt : Nat → Bool) :
    ∀ (files : List ProjectFile) (i : Nat),
      ((runLoop ctx dl total ai cancelAt i files).1).length = files.length := by
  intro files
  induction files with
  | nil => intro i; simp [runLoop]
  | cons f rest ih =>
    intro i
    by_cases hc : cancelAt i = true
    · simp [runLoop, hc]
    · simp only [Bool.not_eq_true] at hc
      simp [runLoop, hc, ih (i + 1)]

/-- A file before the first observed cancellation is processed: the `j`-th
output record is `processFile` of the `j`-th input, fed this index's oracle
outcome. -/
theorem runLoop_get_processed (ctx : String) (dl : DocLanguage) (total : Nat)
    (ai : Nat → Except JsError String) (cancelAt : Nat → Bool) :
    ∀ (files : List ProjectFile) (i j : Nat),
      (∀ k, k ≤ j → cancelAt (i + k) = false) →
      ((runLoop ctx dl total ai cancelAt i files).1)[j]? =
        (files[j]?).map (fun f => (processFile ctx dl (ai (i + j)) f).1) := by
  intro files
  induction files with
  | nil => intro i j _; simp [runLoop]
  | cons f rest ih =>
    intro i j h
    have h0 : cancelAt i = false := by simpa using h 0 (Nat.zero_le j)
    cases j with
    | zero => simp [runLoop, h0]
    | succ j' =>
      have hrec := ih (i + 1) j' (fun k hk => by
        have := h (k + 1) (Nat.succ_le_succ hk)
        simpa [Nat.add_assoc, Nat.add_comm 1 k] using this)
      have harg : i + 1 + j' = i + (j' + 1) := by omega
      rw [harg] at hrec
      simp only [runLoop, h0, Bool.false_eq_true, if_false,
        List.getElem?_cons_succ]
      exact hrec

/-- A file at or past the first observed cancellation is untouched. -/
theorem runLoop_get_untouched (ctx : String) (dl : DocLanguage) (total : Nat)
    (ai : Nat → Except JsError String) (cancelAt : Nat → Bool) :
    ∀ (files : List ProjectFile) (i j : Nat),
      (∃ k, k ≤ j ∧ cancelAt (i + k) = true) →
      ((runLoop ctx dl total ai cancelAt i files).1)[j]? = files[j]? := by
  intro files
  induction files with
  | nil => intro i j _; simp [runLoop]
  | cons f rest ih =>
    intro i j h
    by_cases hc : cancelAt i = true
    · simp [runLoop, hc]
    · simp only [Bool.not_eq_true] at hc
      obtain ⟨k, hk, hck⟩ := h
      cases k with
      | zero => simp [hc] at hck
      | succ k' =>
        cases j with
        | zero => omega
        | succ j' =>
          have hrec := ih (i + 1) j' ⟨k', by omega, by
            have : i + 1 + k' = i + (k' + 1) := by omega
            rw [this]; exact hck⟩
          simp [runLoop, hc, hrec]

/-- A progress message is emitted for exactly the files processed before the
first observed cancellation, in order: the `j`-th message names the `j`-th
file. -/
theorem runLoop_msgs_get (ctx : String) (dl : DocLanguage) (total : Nat)
    (ai : Nat → Except JsError String) (cancelAt : Nat → Bool) :
    ∀ (files : List ProjectFile) (i j : Nat),
      (∀ k, k ≤ j → cancelAt (i + k) = false) →
      ((runLoop ctx dl total ai cancelAt i files).2)[j]? =
        (files[j]?).map (fun f => progressMessage total (i + j) f) := by
  intro files
  induction files with
  | nil => intro i j _; simp [runLoop]
  | cons f rest ih =>
    intro i j h
    have h0 : cancelAt i = false := by simpa using h 0 (Nat.zero_le j)
    cases j with
    | zero => simp [runLoop, h0]
    | succ j' =>
      have hrec := ih (i + 1) j' (fun k hk => by
        have := h (k + 1) (Nat.succ_le_succ hk)
        simpa [Nat.add_assoc, Nat.add_comm 1 k] using this)
      have harg : i + 1 + j' = i + (j' + 1) := by omega
      rw [harg] at hrec
      simp only [runLoop, h0, Bool.false_eq_true, if_false,
        List.getElem?_cons_succ]
      exact hrec

/-- Processing a fresh record (both outcome fields null) writes exactly one
of the two outcome fields. -/
theorem processFile_fresh (ctx : String) (dl : DocLanguage)
    (o : Except JsError String) (f : ProjectFile)
    (hd : f.documentedContent = none) (he : f.error = none) :
    (((processFile ctx dl o f).1).documentedContent.isSome = true ∧
        ((processFile ctx dl o f).1).error = none) ∨
      (((processFile ctx dl o f).1).error.isSome = true ∧
        ((processFile ctx dl o f).1).documentedContent = none) := by
  unfold processFile generateDocumentation
  by_cases hl : (f.language == "code") = true
  · simp [hl, he]
  · simp only [Bool.not_eq_true] at hl
    by_cases hs : ((jsTrim f.content).length == 0) = true
    · simp [hl, hs, he]
    · simp only [Bool.not_eq_true] at hs
      cases o with
      | ok text => simp [hl, hs, he]
      | error e => simp [hl, hs, hd]

/-- A per-file documentation failure is caught: the failure's mapped message
goes to `error` and nothing else of the record changes (in particular
`documentedContent` keeps its prior value). -/
theorem processFile_failure (ctx : String) (dl : DocLanguage) (e : JsError)
    (f : ProjectFile) (hlang : f.language ≠ "code")
    (hcontent : jsTrim f.content ≠ "") :
    processFile ctx dl (.error e) f =
      ({ f with error := some (mapErrorMessage e) }, 1) := by
  have h1 : (f.language == "code") = false := by
    simpa using hlang
  have hlen : (jsTrim f.content).length ≠ 0 := by
    intro hc
    exact hcontent (by
      cases hs : jsTrim f.content with
      | mk data =>
        cases data with
        | nil => rfl
        | cons c cs => rw [hs] at hc; simp [String.length] at hc)
  have h2 : ((jsTrim f.content).length == 0) = false := by simpa using hlen
  simp [processFile, generateDocumentation, h1, h2]

/-- With no cancellation observed over the list, one message per file. -/
theorem runLoop_msgs_length (ctx : String) (dl : DocLanguage) (total : Nat)
    (ai : Nat → Except JsError String) (cancelAt : Nat → Bool) :
    ∀ (files : List ProjectFile) (i : Nat),
      (∀ k, k < files.length → cancelAt (i + k) = false) →
      ((runLoop ctx dl total ai cancelAt i files).2).length = files.length := by
  intro files
  induction files with
  | nil => intro i _; simp [runLoop]
  | cons f rest ih =>
    intro i h
    have h0 : cancelAt i = false := by simpa using h 0 (by simp)
    have hrec := ih (i + 1) (fun k hk => by
      have := h (k + 1) (by simpa using Nat.succ_lt_succ hk)
      simpa [Nat.add_assoc, Nat.add_comm 1 k] using this)
    simp [runLoop, h0, hrec]

/-- Unfolding `handleAnalyze` on a run that has files to process. -/
theorem handleAnalyze_eq (main frontend : List ProjectFile) (dl : DocLanguage)
    (ai : Nat → Except JsError String) (cancelAt : Nat → Bool)
    (h : main ++ frontend ≠ []) :
    handleAnalyze main frontend dl ai cancelAt =
      { mainFiles := ((runLoop (buildProjectContext (main ++ frontend)) dl
          (main ++ frontend).length ai cancelAt 0 (main ++ frontend)).1).take main.length
        frontendFiles := ((runLoop (buildProjectContext (main ++ frontend)) dl
          (main ++ frontend).length ai cancelAt 0 (main ++ frontend)).1).drop main.length
        appState := .reviewing
        progressMessages := (runLoop (buildProjectContext (main ++ frontend)) dl
          (main ++ frontend).length ai cancelAt 0 (main ++ frontend)).2
        projectContext := some (buildProjectContext (main ++ frontend)) } := by
  have hne : (main ++ frontend).length ≠ 0 := fun hc => h (List.length_eq_zero.mp hc)
  have hlen : ((main ++ frontend).length == 0) = false := by simpa using hne
  simp [handleAnalyze, hlen]
  intro hm
  rw [hm] at h
  simpa using h

/-- After a run with files, the combined post-run list is the loop's output
over `main ++ frontend`. -/
theorem allResultFiles_handleAnalyze (main frontend : List ProjectFile)
    (dl : DocLanguage) (ai : Nat → Except JsError String) (cancelAt : Nat → Bool)
    (h : main ++ frontend ≠ []) :
    allResultFiles (handleAnalyze main frontend dl ai cancelAt) =
      (runLoop (buildProjectContext (main ++ frontend)) dl
        (main ++ frontend).length ai cancelAt 0 (main ++ frontend)).1 := by
  rw [handleAnalyze_eq main frontend dl ai cancelAt h]
  simp [allResultFiles]

/-- The per-record toggle of `toggleFileInclusion` is an involution. -/
theorem toggleRecord_involutive (n : String) (f : ProjectFile) :
    toggleRecord n (toggleRecord n f) = f := by
  cases f with
  | mk nm ct lg dc er inc =>
    by_cases h : (nm == n) = true
    · simp [toggleRecord, h]
    · simp [toggleRecord, h]

/-- Mapping the per-record toggle twice over a list is the identity. -/
theorem toggleMap_involutive (n : String) (files : List ProjectFile) :
    ((files.map (toggleRecord n)).map (toggleRecord n)) = files := by
  induction files with
  | nil => rfl
  | cons f rest ih =>
    simp only [List.map_cons, ih, toggleRecord_involutive]

/-- Unfolding `toggleFileInclusion` for the main grouping. -/
theorem toggleFileInclusion_main (n : String) (a b : List ProjectFile) :
    toggleFileInclusion .main n a b = (a.map (toggleRecord n), b) := rfl

/-- Unfolding `toggleFileInclusion` for the frontend grouping. -/
theorem toggleFileInclusion_frontend (n : String) (a b : List ProjectFile) :
    toggleFileInclusion .frontend n a b = (a, b.map (toggleRecord n)) := rfl

/-- C1 (claim): for every file record, during and after a run started on
freshly uploaded records, exactly one of the following holds: the
documented content is written and the error null, the error is written and
the documented content null, or both are null (not yet / never reached).
In particular no record ever carries both a documented content and an
error.  (The quantification over every `cancelAt` oracle covers every
intermediate state of the loop as well: the state after `t` steps equals
the final state of the run whose flag is first observed set at check `t`.) -/
theorem c1_outcome_trichotomy (main frontend : List ProjectFile)
    (dl : DocLanguage) (ai : Nat → Except JsError String)
    (cancelAt : Nat → Bool)
    (hfresh : freshFiles (main ++ frontend)) :
    ∀ f ∈ allResultFiles (handleAnalyze main frontend dl ai cancelAt),
      (f.documentedContent.isSome = true ∧ f.error = none) ∨
        (f.error.isSome = true ∧ f.documentedContent = none) ∨
        (f.documentedContent = none ∧ f.error = none) := by
  intro f hf
  by_cases hne : main ++ frontend = []
  · rcases List.append_eq_nil.mp hne with ⟨h1, h2⟩
    subst h1; subst h2
    simp [allResultFiles, handleAnalyze] at hf
  · rw [allResultFiles_handleAnalyze main frontend dl ai cancelAt hne] at hf
    obtain ⟨j, hj⟩ := List.mem_iff_getElem?.mp hf
    by_cases hcan : ∀ k, k ≤ j → cancelAt (0 + k) = false
    · rw [runLoop_get_processed _ _ _ _ _ _ 0 j hcan] at hj
      cases hg : (main ++ frontend)[j]? with
      | none => rw [hg] at hj; simp at hj
      | some g =>
        rw [hg] at hj
        simp only [Option.map_some', Option.some.injEq] at hj
        have hmem : g ∈ main ++ frontend := List.mem_iff_getElem?.mpr ⟨j, hg⟩
        have hfr := hfresh g hmem
        have htr := processFile_fresh (buildProjectContext (main ++ frontend))
          dl (ai (0 + j)) g hfr.1 hfr.2
        rw [hj] at htr
        rcases htr with h | h
        · exact Or.inl h
        · exact Or.inr (Or.inl h)
    · push_neg at hcan
      obtain ⟨k, hk, hck⟩ := hcan
      have hck' : cancelAt (0 + k) = true := by
        revert hck; cases cancelAt (0 + k) <;> simp
      rw [runLoop_get_untouched _ _ _ _ _ _ 0 j ⟨k, hk, hck'⟩] at hj
      have hmem : f ∈ main ++ frontend := List.mem_iff_getElem?.mpr ⟨j, hj⟩
      exact Or.inr (Or.inr (hfresh f hmem))

/-- C2 (claim): a per-file documentation failure is contained: the failing
file's `error` is set to the mapped failure message while its
`documentedContent` stays null, sibling records do not depend on that
file's outcome, and the loop proceeds to the next file whenever no
cancellation is observed there. -/
theorem c2_failure_containment (main frontend : List ProjectFile)
    (dl : DocLanguage) (ai : Nat → Except JsError String)
    (cancelAt : Nat → Bool) (i : Nat) (fi : ProjectFile) (e : JsError)
    (hfresh : freshFiles (main ++ frontend))
    (hget : (main ++ frontend)[i]? = some fi)
    (hlang : fi.language ≠ "code")
    (hcontent : jsTrim fi.content ≠ "")
    (hai : ai i = .error e)
    (hreach : ∀ j, j ≤ i → cancelAt j = false) :
    (allResultFiles (handleAnalyze main frontend dl ai cancelAt))[i]? =
        some { fi with error := some (mapErrorMessage e) } ∧
      fi.documentedContent = none ∧
      (∀ ai' : Nat → Except JsError String, (∀ j, j ≠ i → ai' j = ai j) →
        ∀ j, j ≠ i →
          (allResultFiles (handleAnalyze main frontend dl ai' cancelAt))[j]? =
            (allResultFiles (handleAnalyze main frontend dl ai cancelAt))[j]?) ∧
      (cancelAt (i + 1) = false →
        (allResultFiles (handleAnalyze main frontend dl ai cancelAt))[i + 1]? =
          ((main ++ frontend)[i + 1]?).map
            (fun f => (processFile (buildProjectContext (main ++ frontend)) dl
              (ai (i + 1)) f).1)) := by
  have hne : main ++ frontend ≠ [] := by
    intro hc
    rw [hc] at hget
    simp at hget
  refine ⟨?_, ?_, ?_, ?_⟩
  · rw [allResultFiles_handleAnalyze main frontend dl ai cancelAt hne]
    rw [runLoop_get_processed _ _ _ _ _ _ 0 i
      (fun k hk => by simpa using hreach k hk)]
    rw [hget]
    simp only [Nat.zero_add, Option.map_some']
    rw [hai, processFile_failure _ _ _ _ hlang hcontent]
  · exact (hfresh fi (List.mem_iff_getElem?.mpr ⟨i, hget⟩)).1
  · intro ai' hagree j hji
    rw [allResultFiles_handleAnalyze main frontend dl ai cancelAt hne,
      allResultFiles_handleAnalyze main frontend dl ai' cancelAt hne]
    by_cases hcan : ∀ k, k ≤ j → cancelAt (0 + k) = false
    · rw [runLoop_get_processed _ _ _ _ _ _ 0 j hcan,
        runLoop_get_processed _ _ _ _ _ _ 0 j hcan]
      rw [show ai' (0 + j) = ai (0 + j) from by simpa using hagree j hji]
    · push_neg at hcan
      obtain ⟨k, hk, hck⟩ := hcan
      have hck' : cancelAt (0 + k) = true := by
        revert hck; cases cancelAt (0 + k) <;> simp
      rw [runLoop_get_untouched _ _ _ _ _ _ 0 j ⟨k, hk, hck'⟩,
        runLoop_get_untouched _ _ _ _ _ _ 0 j ⟨k, hk, hck'⟩]
  · intro hc
    rw [allResultFiles_handleAnalyze main frontend dl ai cancelAt hne]
    rw [runLoop_get_processed _ _ _ _ _ _ 0 (i + 1) (fun k hk => by
      rcases Nat.lt_or_ge k (i + 1) with h | h
      · simpa using hreach k (Nat.lt_succ_iff.mp h)
      · have : k = i + 1 := Nat.le_antisymm hk h
        subst this
        simpa using hc)]
    simp only [Nat.zero_add]

/-- C3 (claim): cancellation is honored only at file boundaries: when the
flag becomes set after the k-th (1-based) file's processing has begun — the
loop's checks before files 1..k read false, every later check reads true —
the k-th file still completes (its `documentedContent` or `error` gets
written), files k+1..n keep both outcome fields null, and the run still
ends in the `reviewing` (Completed) state rather than a distinct cancelled
state. -/
theorem c3_cancellation_boundaries (main frontend : List ProjectFile)
    (dl : DocLanguage) (ai : Nat → Except JsError String)
    (cancelAt : Nat → Bool) (k : Nat)
    (hfresh : freshFiles (main ++ frontend))
    (hk1 : 1 ≤ k) (hkn : k ≤ (main ++ frontend).length)
    (hbefore : ∀ j, j < k → cancelAt j = false)
    (hafter : ∀ j, k ≤ j → cancelAt j = true) :
    (handleAnalyze main frontend dl ai cancelAt).appState = .reviewing ∧
      (∀ j, j < k →
        (allResultFiles (handleAnalyze main frontend dl ai cancelAt))[j]? =
          ((main ++ frontend)[j]?).map (fun f =>
            (processFile (buildProjectContext (main ++ frontend)) dl (ai j) f).1)) ∧
      (∃ f, (allResultFiles (handleAnalyze main frontend dl ai cancelAt))[k - 1]? =
          some f ∧
        (f.documentedContent.isSome = true ∨ f.error.isSome = true)) ∧
      (∀ j, k ≤ j →
        (allResultFiles (handleAnalyze main frontend dl ai cancelAt))[j]? =
          (main ++ frontend)[j]? ∧
        ∀ f, (main ++ frontend)[j]? = some f →
          f.documentedContent = none ∧ f.error = none) := by
  have hne : main ++ frontend ≠ [] := by
    intro hc
    rw [hc] at hkn
    simp at hkn
    omega
  have hproc : ∀ j, j < k →
      (allResultFiles (handleAnalyze main frontend dl ai cancelAt))[j]? =
        ((main ++ frontend)[j]?).map (fun f =>
          (processFile (buildProjectContext (main ++ frontend)) dl (ai j) f).1) := by
    intro j hj
    rw [allResultFiles_handleAnalyze main frontend dl ai cancelAt hne]
    rw [runLoop_get_processed _ _ _ _ _ _ 0 j
      (fun k' hk' => by simpa using hbefore k' (by omega))]
    simp only [Nat.zero_add]
  refine ⟨?_, hproc, ?_, ?_⟩
  · rw [handleAnalyze_eq main frontend dl ai cancelAt hne]
  · have hlt : k - 1 < (main ++ frontend).length := by omega
    obtain ⟨g, hg⟩ : ∃ g, (main ++ frontend)[k - 1]? = some g :=
      ⟨(main ++ frontend)[k - 1], List.getElem?_eq_getElem hlt⟩
    have hmem : g ∈ main ++ frontend := List.mem_iff_getElem?.mpr ⟨k - 1, hg⟩
    have hfr := hfresh g hmem
    refine ⟨(processFile (buildProjectContext (main ++ frontend)) dl
      (ai (k - 1)) g).1, ?_, ?_⟩
    · rw [hproc (k - 1) (by omega), hg]
      rfl
    · rcases processFile_fresh (buildProjectContext (main ++ frontend)) dl
        (ai (k - 1)) g hfr.1 hfr.2 with h | h
      · exact Or.inl h.1
      · exact Or.inr h.1
  · intro j hj
    constructor
    · rw [allResultFiles_handleAnalyze main frontend dl ai cancelAt hne]
      exact runLoop_get_untouched _ _ _ _ _ _ 0 j
        ⟨k, hj, by simpa using hafter k (Nat.le_refl k)⟩
    · intro f hf
      exact hfresh f (List.mem_iff_getElem?.mpr ⟨j, hf⟩)

/-- C4 (claim): the pipeline processes the combined file list in a fixed
order — all files of grouping "main" in insertion order, then all files of
grouping "frontend" in insertion order: with no cancellation the run emits
one progress message per file, and the j-th message announces the j-th file
of `main ++ frontend` with 1-based index j+1 of the combined total. -/
theorem c4_processing_order (main frontend : List ProjectFile)
    (dl : DocLanguage) (ai : Nat → Except JsError String)
    (cancelAt : Nat → Bool)
    (hnc : ∀ j, cancelAt j = false)
    (hne : main ++ frontend ≠ []) :
    (handleAnalyze main frontend dl ai cancelAt).progressMessages.length =
        (main ++ frontend).length ∧
      ∀ j : Nat,
        (handleAnalyze main frontend dl ai cancelAt).progressMessages[j]? =
          ((main ++ frontend)[j]?).map
            (fun f => progressMessage (main ++ frontend).length j f) := by
  rw [handleAnalyze_eq main frontend dl ai cancelAt hne]
  constructor
  · exact runLoop_msgs_length _ _ _ _ _ (main ++ frontend) 0
      (fun k _ => hnc (0 + k))
  · intro j
    have := runLoop_msgs_get (buildProjectContext (main ++ frontend)) dl
      (main ++ frontend).length ai cancelAt (main ++ frontend) 0 j
      (fun k _ => hnc (0 + k))
    simpa using this

/-- A string with non-empty data is not the empty string. -/
theorem string_ne_empty_of_data (s : String) (h : s.data ≠ []) : s ≠ "" :=
  fun hc => h (by rw [hc])

/-- Appending to a string with non-empty data stays non-empty. -/
theorem append_ne_empty_left (s t : String) (h : s.data ≠ []) : s ++ t ≠ "" :=
  string_ne_empty_of_data _ (by
    rw [String.data_append]
    exact fun hc => h (List.append_eq_nil.mp hc).1)

/-- Every branch of the catch block's message construction yields one of the
three documented shapes. -/
theorem baseErrorMessage_forms (e : JsError) :
    baseErrorMessage e = unknownServiceError ∨
      (∃ x, baseErrorMessage e = unexpectedErrorHead ++ x) ∨
      (∃ x, baseErrorMessage e = aiModelErrorHead ++ x) := by
  cases e with
  | nonError => exact Or.inl rfl
  | errObj msg =>
    unfold baseErrorMessage
    repeat' split
    all_goals first
      | exact Or.inl rfl
      | exact Or.inr (Or.inl ⟨_, rfl⟩)
      | exact Or.inr (Or.inr ⟨_, rfl⟩)

/-- The constructed base message is never the empty string. -/
theorem baseErrorMessage_data_ne_nil (e : JsError) :
    (baseErrorMessage e).data ≠ [] := by
  rcases baseErrorMessage_forms e with h | ⟨x, h⟩ | ⟨x, h⟩ <;> rw [h]
  · decide
  · rw [String.data_append]
    intro hc
    have := (List.append_eq_nil.mp hc).1
    revert this
    decide
  · rw [String.data_append]
    intro hc
    have := (List.append_eq_nil.mp hc).1
    revert this
    decide

/-- C7 (claim): the service's failure mapping is total and never empty or
opaque: a message parsing as JSON with a truthy nested `error.message`
surfaces that nested message after "The AI model returned an error: "; an
unparseable non-empty message is surfaced raw after "An unexpected error
occurred: "; with no message available the generic unknown-error text is
used; a "500"/"Rpc failed" marker in the result appends the fixed
remediation hint; and the re-raised failure of `generateDocumentation`
carries exactly this mapped message.  In particular the literal JSON
rejection about an exceeded quota maps to
"The AI model returned an error: quota exceeded". -/
theorem c7_failure_mapping :
    (∀ e : JsError, mapErrorMessage e ≠ "") ∧
    (∀ (msg : String) (parsed errv m : Json),
      msg ≠ "" → parseJson msg = some parsed →
      jsGetField parsed "error" = some errv → jsTruthy errv = true →
      jsGetField errv "message" = some m → jsTruthy m = true →
      baseErrorMessage (.errObj msg) = aiModelErrorHead ++ jsRender m) ∧
    (∀ msg : String, msg ≠ "" → parseJson msg = none →
      baseErrorMessage (.errObj msg) = unexpectedErrorHead ++ msg) ∧
    baseErrorMessage .nonError = unknownServiceError ∧
    baseErrorMessage (.errObj "") = unknownServiceError ∧
    (∀ e : JsError,
      (jsIncludes (baseErrorMessage e) "500" ||
          jsIncludes (baseErrorMessage e) "Rpc failed") = true →
        mapErrorMessage e = baseErrorMessage e ++ remediationHint) ∧
    (∀ e : JsError,
      (jsIncludes (baseErrorMessage e) "500" ||
          jsIncludes (baseErrorMessage e) "Rpc failed") = false →
        mapErrorMessage e = baseErrorMessage e) ∧
    (∀ (script language ctx : String) (dl : DocLanguage) (e : JsError),
      (language == "code" || (jsTrim script).length == 0) = false →
      generateDocumentation script language ctx dl (.error e) =
        (.error (mapErrorMessage e), 1)) ∧
    mapErrorMessage
        (.errObj "\x7b\"error\":\x7b\"message\":\"quota exceeded\"\x7d\x7d") =
      "The AI model returned an error: quota exceeded" := by
  refine ⟨?_, ?_, ?_, rfl, rfl, ?_, ?_, ?_, rfl⟩
  · intro e
    unfold mapErrorMessage
    by_cases h : (jsIncludes (baseErrorMessage e) "500" ||
        jsIncludes (baseErrorMessage e) "Rpc failed") = true
    · simp only [h, if_true]
      exact append_ne_empty_left _ _ (baseErrorMessage_data_ne_nil e)
    · simp only [Bool.not_eq_true] at h
      simp only [h, Bool.false_eq_true, if_false]
      exact string_ne_empty_of_data _ (baseErrorMessage_data_ne_nil e)
  · intro msg parsed errv m hmsg hp hget htru hm2 htm
    have h0 : (msg == "") = false := by simpa using hmsg
    unfold baseErrorMessage
    simp only [h0, Bool.false_eq_true, if_false]
    cases parsed with
    | null => simp [jsGetField] at hget
    | bool b => simp [jsGetField] at hget
    | num n => simp [jsGetField] at hget
    | str s => simp [jsGetField] at hget
    | arr xs => simp [jsGetField] at hget
    | obj kvs =>
      rw [hp]
      simp only [hget, htru, hm2, htm, if_true]
  · intro msg hmsg hp
    have h0 : (msg == "") = false := by simpa using hmsg
    unfold baseErrorMessage
    simp only [h0, Bool.false_eq_true, if_false]
    rw [hp]
  · intro e h
    unfold mapErrorMessage
    simp only [h, if_true]
  · intro e h
    unfold mapErrorMessage
    simp only [h, Bool.false_eq_true, if_false]
  · intro script language ctx dl e h
    simp [generateDocumentation, h]

/-- `dropWhile` passes over an append when the left part survives. -/
theorem dropWhile_append_left (p : Char → Bool) (l1 l2 : List Char)
    (h : l1.dropWhile p ≠ []) :
    (l1 ++ l2).dropWhile p = l1.dropWhile p ++ l2 := by
  induction l1 with
  | nil => simp at h
  | cons c cs ih =>
    by_cases hc : p c = true
    · rw [List.dropWhile_cons] at h ⊢
      rw [List.cons_append, List.dropWhile_cons]
      simp only [hc, if_true] at h ⊢
      exact ih h
    · simp only [Bool.not_eq_true] at hc
      rw [List.cons_append, List.dropWhile_cons, List.dropWhile_cons]
      simp [hc]

/-- `dropWhile` skips an all-dropped left part of an append. -/
theorem dropWhile_append_nil (p : Char → Bool) (l1 l2 : List Char)
    (h : l1.dropWhile p = []) :
    (l1 ++ l2).dropWhile p = l2.dropWhile p := by
  induction l1 with
  | nil => simp
  | cons c cs ih =>
    rw [List.dropWhile_cons] at h
    by_cases hc : p c = true
    · simp only [hc, if_true] at h
      rw [List.cons_append, List.dropWhile_cons]
      simp only [hc, if_true]
      exact ih h
    · simp [hc] at h

/-- A list whose first and last characters are not whitespace is unchanged
by trimming. -/
theorem trimChars_eq_self (l : List Char)
    (h1 : ∀ c, l.head? = some c → c.isWhitespace = false)
    (h2 : ∀ c, l.getLast? = some c → c.isWhitespace = false) :
    trimChars l = l := by
  have d1 : l.dropWhile Char.isWhitespace = l := by
    cases l with
    | nil => rfl
    | cons c rest =>
      rw [List.dropWhile_cons]
      simp [h1 c rfl]
  have d2 : l.reverse.dropWhile Char.isWhitespace = l.reverse := by
    cases hr : l.reverse with
    | nil => rfl
    | cons c rest =>
      have hl : l.getLast? = some c := by
        rw [← List.head?_reverse, hr]
        rfl
      rw [List.dropWhile_cons]
      simp [h2 c hl]
  unfold trimChars
  rw [d1, d2, List.reverse_reverse]

/-- Trailing whitespace is dropped by trimming. -/
theorem trimChars_append_ws (l : List Char) (c : Char)
    (hc : c.isWhitespace = true) :
    trimChars (l ++ [c]) = trimChars l := by
  unfold trimChars
  by_cases hd : l.dropWhile Char.isWhitespace = []
  · rw [dropWhile_append_nil _ _ _ hd, hd]
    simp [List.dropWhile_cons, hc]
  · rw [dropWhile_append_left _ _ _ hd]
    rw [List.reverse_append]
    simp only [List.reverse_cons, List.reverse_nil, List.nil_append,
      List.singleton_append, List.dropWhile_cons, hc, if_true]

/-- `takeWhile` passes over a fully satisfying left part of an append. -/
theorem takeWhile_append_all (p : Char → Bool) (l1 l2 : List Char)
    (h : l1.all p = true) :
    (l1 ++ l2).takeWhile p = l1 ++ l2.takeWhile p := by
  induction l1 with
  | nil => simp
  | cons c cs ih =>
    rw [List.all_cons, Bool.and_eq_true] at h
    rw [List.cons_append, List.takeWhile_cons]
    simp only [h.1, if_true, List.cons_append]
    rw [ih h.2]

/-- The last element of an append with a known last element on the right. -/
theorem getLast?_append_right (l1 l2 : List Char) (c : Char)
    (h : l2.getLast? = some c) : (l1 ++ l2).getLast? = some c := by
  rw [List.getLast?_append, h]
  rfl

/-- C8 (claim): post-processing of a successful service response: when the
entire trimmed response is wrapped in a fenced code block — triple-backtick
delimiters, optional language tag on the opening fence — the stored text is
the fence's interior stripped of the delimiters and surrounding whitespace;
otherwise it is the trimmed response unchanged.  In particular the raw
response "```js\nfoo();\n```" yields "foo();". -/
theorem c8_fence_stripping :
    (∀ tag body : List Char, tag.all Char.isAlpha = true →
      postProcessResponse ⟨'`' :: '`' :: '`' ::
          (tag ++ '\n' :: (body ++ ['\n', '`', '`', '`']))⟩ = ⟨trimChars body⟩) ∧
    (∀ text : String, fenceMatchChars (trimChars text.data) = none →
      postProcessResponse text = jsTrim text) ∧
    postProcessResponse "```js\nfoo();\n```" = "foo();" := by
  refine ⟨?_, ?_, rfl⟩
  · intro tag body htag
    have hd3 : ("```".data : List Char) = ['`', '`', '`'] := rfl
    have htail : (['\n', '`', '`', '`'] : List Char) = ['\n'] ++ ['`', '`', '`'] := rfl
    have htrim : trimChars ('`' :: '`' :: '`' ::
        (tag ++ '\n' :: (body ++ ['\n', '`', '`', '`']))) = '`' :: '`' :: '`' ::
        (tag ++ '\n' :: (body ++ ['\n', '`', '`', '`'])) := by
      apply trimChars_eq_self
      · intro c hc
        simp only [List.head?_cons, Option.some.injEq] at hc
        rw [← hc]
        decide
      · intro c hc
        have h4 : ((body ++ ['\n', '`', '`', '`']) : List Char).getLast? = some '`' :=
          getLast?_append_right _ _ _ (by decide)
        have h3 : (('\n' :: (body ++ ['\n', '`', '`', '`'])) : List Char).getLast? = some '`' := by
          show ((['\n'] ++ (body ++ ['\n', '`', '`', '`'])) : List Char).getLast? = some '`'
          exact getLast?_append_right _ _ _ h4
        have h2 : ((tag ++ '\n' :: (body ++ ['\n', '`', '`', '`'])) : List Char).getLast? =
            some '`' := getLast?_append_right _ _ _ h3
        have h1 : (('`' :: '`' :: '`' ::
            (tag ++ '\n' :: (body ++ ['\n', '`', '`', '`']))) : List Char).getLast? =
            some '`' := by
          show ((['`', '`', '`'] ++ (tag ++ '\n' :: (body ++ ['\n', '`', '`', '`']))) :
            List Char).getLast? = some '`'
          exact getLast?_append_right _ _ _ h2
        rw [h1, Option.some.injEq] at hc
        rw [← hc]
        decide
    have hmatch : fenceMatchChars ('`' :: '`' :: '`' ::
        (tag ++ '\n' :: (body ++ ['\n', '`', '`', '`']))) = some (body ++ ['\n']) := by
      have hpre : (("```".data : List Char)).isPrefixOf ('`' :: '`' :: '`' ::
          (tag ++ '\n' :: (body ++ ['\n', '`', '`', '`']))) = true := by
        rw [hd3]
        simp [List.isPrefixOf]
      unfold fenceMatchChars
      simp only [hpre, if_true]
      have hdrop : (('`' :: '`' :: '`' ::
          (tag ++ '\n' :: (body ++ ['\n', '`', '`', '`']))) : List Char).drop 3 =
          tag ++ '\n' :: (body ++ ['\n', '`', '`', '`']) := rfl
      rw [hdrop]
      have htake : ((tag ++ '\n' :: (body ++ ['\n', '`', '`', '`'])) :
          List Char).takeWhile Char.isAlpha = tag := by
        rw [takeWhile_append_all Char.isAlpha tag _ htag]
        rw [List.takeWhile_cons]
        simp
      rw [htake, List.drop_left]
      have hsuf : (("```".data : List Char)).isSuffixOf
          (body ++ ['\n', '`', '`', '`']) = true := by
        rw [hd3]
        unfold List.isSuffixOf
        rw [htail, ← List.append_assoc, List.reverse_append]
        simp [List.isPrefixOf]
      simp only [hsuf, if_true]
      have hdr : dropRight 3 (body ++ ['\n', '`', '`', '`']) = body ++ ['\n'] := by
        unfold dropRight
        rw [htail, ← List.append_assoc]
        have hlen : (body ++ ['\n'] ++ ['`', '`', '`']).length - 3 =
            (body ++ ['\n']).length := by
          simp
        rw [hlen, List.take_left]
      rw [hdr]
    simp only [postProcessResponse]
    rw [htrim, hmatch]
    show (⟨trimChars (body ++ ['\n'])⟩ : String) = ⟨trimChars body⟩
    rw [trimChars_append_ws body '\n' (by decide)]
  · intro text h
    simp only [postProcessResponse, h]
    rfl

/-- C9 (claim): toggling a file's inclusion twice restores the grouping's
list; a single call flips `isIncluded` exactly on the name-matching records,
leaving their other fields, every other record, and the other grouping
unchanged. -/
theorem c9_toggle_inclusion_involution (p : ProjectName) (n : String)
    (a b : List ProjectFile) :
    toggleFileInclusion p n (toggleFileInclusion p n a b).1
        (toggleFileInclusion p n a b).2 = (a, b) ∧
      (p = .main → (toggleFileInclusion p n a b).2 = b) ∧
      (p = .frontend → (toggleFileInclusion p n a b).1 = a) ∧
      (∀ (j : Nat) (f : ProjectFile), p = .main → a[j]? = some f → f.name ≠ n →
        ((toggleFileInclusion p n a b).1)[j]? = some f) ∧
      (∀ (j : Nat) (f : ProjectFile), p = .main → a[j]? = some f → f.name = n →
        ((toggleFileInclusion p n a b).1)[j]? =
          some { f with isIncluded := !f.isIncluded }) ∧
      (∀ (j : Nat) (f : ProjectFile), p = .frontend → b[j]? = some f → f.name ≠ n →
        ((toggleFileInclusion p n a b).2)[j]? = some f) ∧
      (∀ (j : Nat) (f : ProjectFile), p = .frontend → b[j]? = some f → f.name = n →
        ((toggleFileInclusion p n a b).2)[j]? =
          some { f with isIncluded := !f.isIncluded }) := by
  refine ⟨?_, ?_, ?_, ?_, ?_, ?_, ?_⟩
  · cases p
    · rw [toggleFileInclusion_main, toggleFileInclusion_main, toggleMap_involutive]
    · rw [toggleFileInclusion_frontend, toggleFileInclusion_frontend, toggleMap_involutive]
  · intro hp; subst hp; rw [toggleFileInclusion_main]
  · intro hp; subst hp; rw [toggleFileInclusion_frontend]
  · intro j f hp hj hn
    subst hp
    have hb : (f.name == n) = false := by simpa using hn
    rw [toggleFileInclusion_main]
    simp [List.getElem?_map, hj, toggleRecord, hb]
  · intro j f hp hj hn
    subst hp
    have hb : (f.name == n) = true := by simpa using hn
    rw [toggleFileInclusion_main]
    simp [List.getElem?_map, hj, toggleRecord, hb]
  · intro j f hp hj hn
    subst hp
    have hb : (f.name == n) = false := by simpa using hn
    rw [toggleFileInclusion_frontend]
    simp [List.getElem?_map, hj, toggleRecord, hb]
  · intro j f hp hj hn
    subst hp
    have hb : (f.name == n) = true := by simpa using hn
    rw [toggleFileInclusion_frontend]
    simp [List.getElem?_map, hj, toggleRecord, hb]

/-- `splitChars` never returns the empty list of groups. -/
theorem splitChars_ne_nil (sep : Char) (cs : List Char) :
    splitChars sep cs ≠ [] := by
  induction cs with
  | nil => simp [splitChars]
  | cons c cs' ih =>
    by_cases hc : c = sep
    · simp [splitChars, hc]
    · simp only [splitChars, if_neg hc]
      cases hr : splitChars sep cs' with
      | nil => exact absurd hr ih
      | cons x xs => simp

/-- Splitting a separator-free list yields that list as the one group. -/
theorem splitChars_of_not_mem (sep : Char) (ds : List Char) (h : sep ∉ ds) :
    splitChars sep ds = [ds] := by
  induction ds with
  | nil => rfl
  | cons c cs ih =>
    have hc : ¬ c = sep := fun hc => h (hc ▸ List.mem_cons_self c cs)
    have hcs : sep ∉ cs := fun hm => h (List.mem_cons_of_mem c hm)
    simp [splitChars, hc, ih hcs]

/-- A list containing the separator splits into at least two groups. -/
theorem splitChars_length_of_mem (sep : Char) (cs : List Char)
    (h : sep ∈ cs) : 2 ≤ (splitChars sep cs).length := by
  induction cs with
  | nil => simp at h
  | cons c cs' ih =>
    by_cases hc : c = sep
    · have hne := splitChars_ne_nil sep cs'
      have : 1 ≤ (splitChars sep cs').length := by
        cases hr : splitChars sep cs' with
        | nil => exact absurd hr hne
        | cons x xs => simp
      simp only [splitChars, if_pos hc, List.length_cons]
      omega
    · have hm : sep ∈ cs' := by
        rcases List.mem_cons.mp h with h1 | h1
        · exact absurd h1.symm hc
        · exact h1
      have h2 := ih hm
      simp only [splitChars, if_neg hc]
      cases hr : splitChars sep cs' with
      | nil => exact absurd hr (splitChars_ne_nil sep cs')
      | cons x xs =>
        rw [hr] at h2
        simpa using h2

/-- The last group of a split is the text after the last separator. -/
theorem splitChars_getLast?_append (sep : Char) (cs ds : List Char)
    (h : sep ∉ ds) :
    (splitChars sep (cs ++ sep :: ds)).getLast? = some ds := by
  induction cs with
  | nil =>
    simp [splitChars, splitChars_of_not_mem sep ds h]
  | cons c cs' ih =>
    by_cases hc : c = sep
    · simp only [List.cons_append, splitChars, if_pos hc]
      cases hr : splitChars sep (cs' ++ sep :: ds) with
      | nil => exact absurd hr (splitChars_ne_nil sep _)
      | cons x xs =>
        rw [hr] at ih
        rw [List.getLast?_cons_cons]
        exact ih
    · simp only [List.cons_append, splitChars, if_neg hc]
      have hmem : sep ∈ cs' ++ sep :: ds := by simp
      have hlen := splitChars_length_of_mem sep (cs' ++ sep :: ds) hmem
      cases hr : splitChars sep (cs' ++ sep :: ds) with
      | nil => exact absurd hr (splitChars_ne_nil sep _)
      | cons x xs =>
        rw [hr] at ih hlen
        cases xs with
        | nil => simp at hlen
        | cons y ys =>
          rw [List.getLast?_cons_cons]
          rw [List.getLast?_cons_cons] at ih
          exact ih

/-- `split('.').pop()` of a name with a dot-free extension after its last
dot is that extension. -/
theorem jsPop_jsSplitDot_ext (base ext : String) (h : '.' ∉ ext.data) :
    jsPop (jsSplitDot ⟨base.data ++ '.' :: ext.data⟩) = ext := by
  unfold jsPop jsSplitDot
  rw [List.getLastD_eq_getLast?, List.getLast?_map,
    splitChars_getLast?_append '.' base.data ext.data h]
  cases ext
  rfl

/-- `split('.').pop()` of a dot-free name is the whole name. -/
theorem jsPop_jsSplitDot_nodot (s : String) (h : '.' ∉ s.data) :
    jsPop (jsSplitDot s) = s := by
  unfold jsPop jsSplitDot
  rw [splitChars_of_not_mem '.' s.data h]
  cases s
  rfl

/-- The classifier's `switch` is the table lookup. -/
theorem ifChain_eq_tableLookup (e : String) :
    (if e == "js" then "JavaScript"
     else if e == "ts" then "TypeScript"
     else if e == "py" then "Python"
     else if e == "java" then "Java"
     else if e == "go" then "Go"
     else if e == "gs" then "Google Apps Script"
     else "code") = tableLookup e := by
  simp only [tableLookup, languageTable, List.lookup]
  by_cases h1 : (e == "js") = true
  · simp [h1]
  · simp only [h1, Bool.false_eq_true, if_false, cond_false]
    by_cases h2 : (e == "ts") = true
    · simp [h2]
    · simp only [h2, Bool.false_eq_true, if_false, cond_false]
      by_cases h3 : (e == "py") = true
      · simp [h3]
      · simp only [h3, Bool.false_eq_true, if_false, cond_false]
        by_cases h4 : (e == "java") = true
        · simp [h4]
        · simp only [h4, Bool.false_eq_true, if_false, cond_false]
          by_cases h5 : (e == "go") = true
          · simp [h5]
          · simp only [h5, Bool.false_eq_true, if_false, cond_false]
            by_cases h6 : (e == "gs") = true
            · simp [h6]
            · simp [h6]

/-- The classifier, as a single lookup of the lower-cased popped component. -/
theorem getFileLanguage_eq (s : String) :
    getFileLanguage s = tableLookup (jsToLowerCase (jsPop (jsSplitDot s))) := by
  unfold getFileLanguage
  exact ifChain_eq_tableLookup _

/-- C6 (counterexample to the claim as stated): the claim asserts that a
name with no `'.'` always classifies as the sentinel `"code"`; but the
source pops the last component of `split('.')`, which for a dotless name is
the whole name, so the dotless name `"js"` classifies as `"JavaScript"`. -/
theorem c6_counterexample :
    '.' ∉ "js".data ∧ getFileLanguage "js" = "JavaScript" ∧
      getFileLanguage "js" ≠ "code" := by
  refine ⟨by decide, rfl, by decide⟩

/-- C6 (amended): the classifier is a total deterministic function of the
file name; the compared key is the text after the last `'.'` lower-cased —
or, when the name has no `'.'` at all, the entire name lower-cased — looked
up in the fixed table `{js, ts, py, java, go, gs}`, with the sentinel
`"code"` for keys outside the table. -/
theorem c6_classifier_amended :
    (∀ base ext : String, '.' ∉ ext.data →
      getFileLanguage ⟨base.data ++ '.' :: ext.data⟩ =
        tableLookup (jsToLowerCase ext)) ∧
    (∀ s : String, '.' ∉ s.data →
      getFileLanguage s = tableLookup (jsToLowerCase s)) := by
  constructor
  · intro base ext h
    rw [getFileLanguage_eq, jsPop_jsSplitDot_ext base ext h]
  · intro s h
    rw [getFileLanguage_eq, jsPop_jsSplitDot_nodot s h]

/-- C5 (claim): with the sentinel label `"code"` or empty/whitespace-only
content, `generateDocumentation` returns the content unchanged as the
documented result making zero external AI calls; the pipeline's per-file
step likewise stores the content unchanged with zero external calls. -/
theorem c5_short_circuit :
    (∀ (script language ctx : String) (dl : DocLanguage)
        (o : Except JsError String),
      language = "code" ∨ jsTrim script = "" →
      generateDocumentation script language ctx dl o = (.ok script, 0)) ∧
    (∀ (ctx : String) (dl : DocLanguage) (o : Except JsError String)
        (f : ProjectFile),
      f.language = "code" →
      processFile ctx dl o f = ({ f with documentedContent := some f.content }, 0)) ∧
    (∀ (ctx : String) (dl : DocLanguage) (o : Except JsError String)
        (f : ProjectFile),
      jsTrim f.content = "" →
      (processFile ctx dl o f).1.documentedContent = some f.content ∧
        (processFile ctx dl o f).2 = 0) := by
  have hgen : ∀ (script language ctx : String) (dl : DocLanguage)
      (o : Except JsError String),
      language = "code" ∨ jsTrim script = "" →
      generateDocumentation script language ctx dl o = (.ok script, 0) := by
    intro script language ctx dl o h
    have hcond : (language == "code" || (jsTrim script).length == 0) = true := by
      rcases h with h | h
      · subst h; simp
      · rw [h]; simp
    simp [generateDocumentation, hcond]
  refine ⟨hgen, ?_, ?_⟩
  · intro ctx dl o f h
    have hl : (f.language == "code") = true := by simpa using h
    simp [processFile, hl]
  · intro ctx dl o f h
    by_cases hl : (f.language == "code") = true
    · simp [processFile, hl]
    · have hgd := hgen f.content f.language ctx dl o (Or.inr h)
      simp [processFile, hl, hgd]

/-- C10 (claim): starting a run with both groupings empty performs no
processing: no context is built, no progress message is emitted, no record
is touched, and the application returns to `uploading` instead of
`reviewing`. -/
theorem c10_empty_run_is_noop (dl : DocLanguage)
    (ai : Nat → Except JsError String) (cancelAt : Nat → Bool) :
    handleAnalyze [] [] dl ai cancelAt =
      { mainFiles := [], frontendFiles := [], appState := .uploading,
        progressMessages := [], projectContext := none } := rfl

/-! ## Witnesses: the theorems applied at concrete inputs -/

/-- C1's trichotomy at a concrete run over a fresh two-file upload. -/
theorem c1_witness :
    freshFiles (sampleMain ++ ([] : List ProjectFile)) ∧
      ∀ f ∈ allResultFiles (handleAnalyze sampleMain [] .en sampleAiOk
          (fun _ => false)),
        (f.documentedContent.isSome = true ∧ f.error = none) ∨
          (f.error.isSome = true ∧ f.documentedContent = none) ∨
          (f.documentedContent = none ∧ f.error = none) :=
  ⟨by decide,
    c1_outcome_trichotomy sampleMain [] .en sampleAiOk (fun _ => false)
      (by decide)⟩

/-- C2's failure containment at a concrete failing first file. -/
theorem c2_witness :
    (allResultFiles (handleAnalyze sampleMain [] .en sampleAiErr
        (fun _ => false)))[0]? =
      some { samplePyFile with error := some (mapErrorMessage (.errObj "boom")) } :=
  (c2_failure_containment sampleMain [] .en sampleAiErr (fun _ => false) 0
    samplePyFile (.errObj "boom") (by decide) (by decide) (by decide)
    (by decide) rfl (fun _ _ => rfl)).1

/-- C3's terminal state at a concrete run cancelled after the first file. -/
theorem c3_witness :
    (handleAnalyze sampleMain [] .en sampleAiOk sampleCancelAfter1).appState =
      .reviewing :=
  (c3_cancellation_boundaries sampleMain [] .en sampleAiOk sampleCancelAfter1 1
    (by decide) (by decide) (by decide)
    (fun j hj => by
      have : j = 0 := by omega
      subst this
      rfl)
    (fun j hj => by
      simpa [sampleCancelAfter1, Nat.ble_eq] using hj)).1

/-- C4's ordering at the spec's concrete scenario: the fourth message
announces `d.ts`, the frontend file, after the three main files. -/
theorem c4_witness :
    (handleAnalyze sampleMain4 sampleFrontend4 .en sampleAiOk
        (fun _ => false)).progressMessages[3]? =
      some "Analyzing 4/4: d.ts" := by
  have h := c4_processing_order sampleMain4 sampleFrontend4 .en sampleAiOk
    (fun _ => false) (fun _ => rfl) (by decide)
  rw [h.2 3]
  decide

/-- C5's short-circuit at a concrete sentinel-labelled input. -/
theorem c5_witness :
    generateDocumentation "x" "code" "ctx" .en (.error .nonError) =
      (.ok "x", 0) :=
  c5_short_circuit.1 "x" "code" "ctx" .en (.error .nonError) (Or.inl rfl)

/-- C6's amended classification at a concrete extension and a concrete
dotless name. -/
theorem c6_witness :
    getFileLanguage ⟨"a".data ++ '.' :: "ts".data⟩ =
        tableLookup (jsToLowerCase "ts") ∧
      getFileLanguage "makefile" = tableLookup (jsToLowerCase "makefile") :=
  ⟨c6_classifier_amended.1 "a" "ts" (by decide),
    c6_classifier_amended.2 "makefile" (by decide)⟩

/-- C7's nested-message mapping at the spec's quota-exceeded payload. -/
theorem c7_witness :
    baseErrorMessage
        (.errObj "\x7b\"error\":\x7b\"message\":\"quota exceeded\"\x7d\x7d") =
      aiModelErrorHead ++ jsRender (.str "quota exceeded") :=
  c7_failure_mapping.2.1
    "\x7b\"error\":\x7b\"message\":\"quota exceeded\"\x7d\x7d"
    (.obj [("error", .obj [("message", .str "quota exceeded")])])
    (.obj [("message", .str "quota exceeded")]) (.str "quota exceeded")
    (by decide) rfl rfl rfl rfl rfl

/-- C8's fence stripping at the spec's concrete fenced response. -/
theorem c8_witness :
    postProcessResponse ⟨'`' :: '`' :: '`' ::
        ("js".data ++ '\n' :: ("foo();".data ++ ['\n', '`', '`', '`']))⟩ =
      ⟨trimChars "foo();".data⟩ :=
  c8_fence_stripping.1 "js".data "foo();".data (by decide)

/-- C9's involution and single-call flip at a concrete grouping. -/
theorem c9_witness :
    toggleFileInclusion .main "a.py"
        (toggleFileInclusion .main "a.py" sampleMain []).1
        (toggleFileInclusion .main "a.py" sampleMain []).2 = (sampleMain, []) ∧
      ((toggleFileInclusion .main "a.py" sampleMain []).1)[0]? =
        some { samplePyFile with isIncluded := !samplePyFile.isIncluded } :=
  ⟨(c9_toggle_inclusion_involution .main "a.py" sampleMain []).1,
    (c9_toggle_inclusion_involution .main "a.py" sampleMain []).2.2.2.2.1 0
      samplePyFile rfl (by decide) rfl⟩

